import Mathlib

/-!
# Verification of the mercadolivre_scrapy crawl-and-normalize pipeline

Shallow embedding of the two source modules the claims are about:

* extract/spiders/mercadolivre.py — the Scrapy spider
  (MercadolivreSpider.parse / parse_next_pages): two layout-generation
  extractors and the pagination control (page_count / max_pages).
* transform/main.py — the pandas transform (preprocess_data,
  save_to_database).

Strings are Lean String values, numeric values are rationals and integers
(pandas floats are modelled exactly as the rationals the decimal texts
denote; a pandas NaN or NA result is modelled as none, which matches how it
is persisted: as SQL NULL).  A pandas operation that can raise is modelled
with Except.
-/

namespace Mercadolivre

/-! ## Model of the string-to-number parsing used by pandas

Calling pd.to_numeric with errors="coerce" on a string skips leading and
trailing whitespace (precise_xstrtod skips whitespace before the sign and
after the literal), parses an optionally signed decimal literal (sign,
digits, optional period and more digits, at least one digit overall) and
yields NaN (here none) on anything else.  Exponent forms such as "1e5",
which the pandas parser also accepts, are not exercised by any field of
this pipeline and are left out of the model. -/

/-- Numeric value of a digit string, most significant digit first
(digitsVal of the list 1,2,3 is 123). -/
def digitsVal (l : List Char) : Nat :=
  l.foldl (fun a c => 10 * a + (c.toNat - 48)) 0

/-- Parse of an unsigned decimal literal: digits, then optionally a period
and more digits, at least one digit overall, nothing else. -/
def parseUnsigned (l : List Char) : Option ℚ :=
  let ip := l.takeWhile Char.isDigit
  let rest := l.dropWhile Char.isDigit
  match rest with
  | [] => if ip = [] then none else some (digitsVal ip : ℚ)
  | '.' :: fp =>
      if fp.all Char.isDigit ∧ (ip ≠ [] ∨ fp ≠ []) then
        some ((digitsVal ip : ℚ) + (digitsVal fp : ℚ) / 10 ^ fp.length)
      else none
  | _ => none

/-- Parse of an optionally signed decimal literal. -/
def parseSigned (l : List Char) : Option ℚ :=
  match l with
  | '-' :: rest => (parseUnsigned rest).map Neg.neg
  | '+' :: rest => parseUnsigned rest
  | _ => parseUnsigned l

/-- Whitespace characters skipped by the pandas numeric parser (the C
isspace set). -/
def isSpaceChar (c : Char) : Bool :=
  c == ' ' || c == '\t' || c == '\n' || c == '\x0b' || c == '\x0c' || c == '\r'

/-- Leading and trailing whitespace removal performed by the pandas numeric
parser around the literal. -/
def stripSpaces (l : List Char) : List Char :=
  ((l.dropWhile isSpaceChar).reverse.dropWhile isSpaceChar).reverse

/-- Model of pd.to_numeric with errors="coerce" applied to one string cell:
skip surrounding whitespace, then the parsed number, or none (pandas NaN)
when unparsable. -/
def toNumericCoerceStr (s : String) : Option ℚ :=
  parseSigned (stripSpaces s.data)

/-- Model of pd.to_numeric with errors="coerce" applied to one cell that may
already be null (a Python None): nulls stay null (NaN). -/
def toNumericCoerce (v : Option String) : Option ℚ :=
  v.bind toNumericCoerceStr

/-! ## Field conversions of preprocess_data (transform/main.py, lines 48-57) -/

/-- Model of astype(str) on one cell of an object column holding optional
strings: a Python None cell renders as the literal text "None". -/
def pyAstypeStr (v : Option String) : String :=
  match v with
  | none => "None"
  | some s => s

/-- Model of .str.replace(",", ".", regex=False): replace every comma by a
period (a single-character replacement is a character map). -/
def replaceCommaDot (s : String) : String :=
  ⟨s.data.map fun c => if c = ',' then '.' else c⟩

/-- Price normalization, lines 52-53 of transform/main.py: astype(str), then
comma-to-period replacement, then pd.to_numeric with errors="coerce",
applied to one cell. -/
def normPrice (v : Option String) : Option ℚ :=
  toNumericCoerceStr (replaceCommaDot (pyAstypeStr v))

/-- Model of astype with target dtype Int64 on one float cell: NaN becomes
NA (none), an integral float is cast, and a non-integral float makes pandas
raise (TypeError: cannot safely cast non-equivalent float64 to int64). -/
def astypeInt64 (q : Option ℚ) : Except Unit (Option ℤ) :=
  match q with
  | none => .ok none
  | some q => if q.den = 1 then .ok (some q.num) else .error ()

/-- Review-count normalization, line 57 of transform/main.py: pd.to_numeric
with errors="coerce" followed by astype to Int64, applied to one cell. -/
def normReview (v : Option String) : Except Unit (Option ℤ) :=
  astypeInt64 (toNumericCoerce v)

/-- Rating normalization, line 56 of transform/main.py: pd.to_numeric with
errors="coerce", applied to one cell. -/
def normRating (v : Option String) : Option ℚ :=
  toNumericCoerce v

/-! ## Model of the spider (extract/spiders/mercadolivre.py)

A product container (div.ui-search-result__wrapper) is modelled by the
query function it answers: product.css(sel).get() returns the first
matching text for the selector string sel, or None.  A response page is its
list of product containers together with the same query function at page
level (used for the next-page link selector). -/

/-- One product container node; css sel models product.css(sel).get(). -/
structure ProductNode where
  css : String → Option String

/-- One fetched page: the product containers selected by
response.css("div.ui-search-result__wrapper") plus the page-level query
function response.css(sel).get(). -/
structure PageNode where
  products : List ProductNode
  css : String → Option String

/-- Per-product record the spider yields: all values as scraped (optional
strings), with the keys of the yielded dict. -/
structure RawListing where
  brand : Option String
  name : Option String
  old_price : Option String
  new_price : Option String
  review_rating_number : Option String
  review_amount : Option String
deriving DecidableEq, Repr

/-- Python str.strip with a character set: remove any leading and trailing
characters drawn from chars. -/
def pyStrip (chars : List Char) (s : String) : String :=
  ⟨((s.data.dropWhile (chars.contains ·)).reverse.dropWhile (chars.contains ·)).reverse⟩

/-- Python `a or b` on strings: b when a is empty (falsy), else a. -/
def pyOrStr (a b : String) : String :=
  if a = "" then b else a

/-- Review-amount expression shared by both parse methods: css get with
default "0", then `or "0"`, then strip of enclosing parenthesis characters. -/
def reviewAmountOf (raw : Option String) : String :=
  pyStrip ['(', ')'] (pyOrStr (raw.getD "0") "0")

/-- Dict yielded per product by MercadolivreSpider.parse (generation A
selectors, lines 56-69). -/
def parseItemA (p : ProductNode) : RawListing where
  brand := p.css "span.poly-component__brand::text"
  name := p.css "h3.poly-component__title-wrapper a::text"
  old_price := p.css "s.andes-money-amount.andes-money-amount--previous.andes-money-amount--cents-comma span.andes-money-amount__fraction::text"
  new_price := p.css "div.poly-price__current span.andes-money-amount__fraction::text"
  review_rating_number := p.css "span.poly-reviews__rating::text"
  review_amount := some (reviewAmountOf (p.css "span.poly-reviews__total::text"))

/-- Dict yielded per product by MercadolivreSpider.parse_next_pages
(generation B selectors, lines 98-117). -/
def parseItemB (p : ProductNode) : RawListing where
  brand := p.css "span.ui-search-item__brand-discoverability.ui-search-item__group__element::text"
  name := p.css "h2.ui-search-item__title.ui-search-item__group__element a::text"
  old_price := p.css "s.andes-money-amount span.andes-money-amount__fraction::text"
  new_price := p.css "div.ui-search-price__second-line span.andes-money-amount__fraction::text"
  review_rating_number := p.css "span.ui-search-reviews__rating-number::text"
  review_amount := some (reviewAmountOf (p.css "span.ui-search-reviews__amount::text"))

/-- Next-page link selector used by both parse methods. -/
def nextSelector : String :=
  "li.andes-pagination__button.andes-pagination__button--next a::attr(href)"

/-- Marker for which selector ruleset extracted a page. -/
inductive Gen
  | A
  | B
deriving DecidableEq, Repr

/-- One visited page of a crawl: its URL, the ruleset generation used on it,
and the records yielded from it. -/
structure PageVisit where
  url : String
  gen : Gen
  items : List RawListing
deriving DecidableEq, Repr

/-! The pagination state of the spider is page_count (starting at 1, one per
fetched page) against the class attribute max_pages.  Both enter the control
flow only through the guard `page_count < max_pages` and the increment
`page_count += 1` performed before following the link, so the functions
below carry the remaining budget `remaining = max_pages - page_count`: the
guard holds exactly when remaining is positive, and each follow decreases
remaining by one.  Following the extracted href (response.follow) is
modelled by handing it to the ambient fetch function. -/

/-- Model of MercadolivreSpider.parse_next_pages (lines 82-128): yield a
generation-B record per product, then follow the next-page link (calling
itself) only when `page_count < max_pages` and the link exists. -/
def parse_next_pages (fetch : String → PageNode) : Nat → String → List PageVisit
  | 0, url =>
      [⟨url, Gen.B, (fetch url).products.map parseItemB⟩]
  | remaining + 1, url =>
      let pg := fetch url
      ⟨url, Gen.B, pg.products.map parseItemB⟩ ::
        (match pg.css nextSelector with
          | some nxt => parse_next_pages fetch remaining nxt
          | none => [])

/-- Model of MercadolivreSpider.parse (lines 40-80): yield a generation-A
record per product, then follow the next-page link into parse_next_pages
only when `page_count < max_pages` and the link exists. -/
def parse (fetch : String → PageNode) : Nat → String → List PageVisit
  | 0, url =>
      [⟨url, Gen.A, (fetch url).products.map parseItemA⟩]
  | remaining + 1, url =>
      let pg := fetch url
      ⟨url, Gen.A, pg.products.map parseItemA⟩ ::
        (match pg.css nextSelector with
          | some nxt => parse_next_pages fetch remaining nxt
          | none => [])

/-- Whole crawl run: Scrapy fetches the start URL into parse with
`page_count = 1`, so the remaining budget is `max_pages - 1`. -/
def crawl (fetch : String → PageNode) (max_pages : Nat) (startUrl : String) :
    List PageVisit :=
  parse fetch (max_pages - 1) startUrl

/-! ## The transform records (transform/main.py, lines 34-73) -/

/-- Value of the SOURCE_URL constant, stamped as the `_source` column
(line 45). -/
def SOURCE_URL : String :=
  "https://lista.mercadolivre.com.br/geladeira-frost-free"

/-- One row of the preprocessed frame, with the columns produced by
preprocess_data. -/
structure ProductRow where
  brand : Option String
  name : Option String
  old_price : Option ℚ
  new_price : Option ℚ
  review_rating_number : Option ℚ
  review_amount : Option ℤ
  _source : String
  _crawled_at : String
deriving DecidableEq, Repr

/-- Conversions of preprocess_data applied to one row: metadata stamps,
price columns through astype(str) / comma replacement / to_numeric, rating
through to_numeric, review amount through to_numeric and the Int64 cast
(the one conversion that can raise). -/
def preprocessRow (now : String) (r : RawListing) : Except Unit ProductRow :=
  match normReview r.review_amount with
  | .error e => .error e
  | .ok ra =>
      .ok
        { brand := r.brand
          name := r.name
          old_price := normPrice r.old_price
          new_price := normPrice r.new_price
          review_rating_number := normRating r.review_rating_number
          review_amount := ra
          _source := SOURCE_URL
          _crawled_at := now }

/-- Model of preprocess_data (lines 34-59) over the whole frame.  The single
datetime.now read of line 46 is the parameter now, stamped on every row.
The column-wise pandas conversions are applied row-wise here; this is
equivalent because each conversion is cell-local, and the Int64 cast raising
on any non-integral cell makes the whole call raise in both
presentations. -/
def preprocess_data (now : String) : List RawListing → Except Unit (List ProductRow)
  | [] => .ok []
  | r :: rs =>
      match preprocessRow now r with
      | .error e => .error e
      | .ok row =>
          match preprocess_data now rs with
          | .error e => .error e
          | .ok rest => .ok (row :: rest)

/-- State of one SQLite database file: current contents per table name. -/
def Db : Type :=
  String → Option (List ProductRow)

/-- Model of save_to_database (lines 61-73): to_sql with if_exists="replace"
drops any existing table of that name and writes the frame rows as the new
complete table contents; db is the state of the database file found at
db_path. -/
def save_to_database (df : List ProductRow) (db : Db) (table_name : String) : Db :=
  fun t => if t = table_name then some df else db t

/-! ## Test fixtures (concrete inputs used by the theorems below) -/

/-- Product container answering the selectors of a finite table. -/
def nodeOf (m : List (String × String)) : ProductNode :=
  ⟨fun sel => (m.find? fun kv => kv.1 == sel).map fun kv => kv.2⟩

/-- Page 1 of the three-page fixture: one product carrying a generation-A
brand element, and a next-page link to page 2. -/
def fixturePage1 : PageNode :=
  ⟨[nodeOf [("span.poly-component__brand::text", "Brastemp")]],
    fun sel => if sel = nextSelector then some "page2" else none⟩

/-- Page 2 of the three-page fixture: one product carrying a generation-B
brand element, and a next-page link to page 3. -/
def fixturePage2 : PageNode :=
  ⟨[nodeOf [("span.ui-search-item__brand-discoverability.ui-search-item__group__element::text", "Consul")]],
    fun sel => if sel = nextSelector then some "page3" else none⟩

/-- Page 3 of the three-page fixture: one product, no next-page link. -/
def fixturePage3 : PageNode :=
  ⟨[nodeOf [("span.ui-search-item__brand-discoverability.ui-search-item__group__element::text", "Electrolux")]],
    fun _ => none⟩

/-- Fetch function of the three-page fixture. -/
def fixtureFetch : String → PageNode := fun url =>
  if url = "page2" then fixturePage2 else if url = "page3" then fixturePage3 else fixturePage1

/-- Raw record with every field absent except a review amount text. -/
def rawReviewOnly (t : String) : RawListing :=
  ⟨none, none, none, none, none, some t⟩

/-- Raw record with every field absent (review amount null as in a JSON
record holding null). -/
def rawAllNone : RawListing :=
  ⟨none, none, none, none, none, none⟩

/-- Row produced by normalizing `rawAllNone` at timestamp "t". -/
def rowAllNone : ProductRow :=
  ⟨none, none, none, none, none, none, SOURCE_URL, "t"⟩

/-- Raw record with negative price texts and an out-of-range rating text. -/
def rawNegPrice : RawListing :=
  ⟨none, none, some "-1", some "-1", some "7.3", some "0"⟩

/-- Data columns of a row: every output column except the `_crawled_at`
stamp. -/
def dataColumns (r : ProductRow) :
    Option String × Option String × Option ℚ × Option ℚ × Option ℚ × Option ℤ × String :=
  (r.brand, r.name, r.old_price, r.new_price, r.review_rating_number, r.review_amount, r._source)

end Mercadolivre

/-! ## Helper lemmas -/

namespace Mercadolivre

lemma parseSigned_cons_digit {c : Char} {cs : List Char} (h : Char.isDigit c = true) :
    parseSigned (c :: cs) = parseUnsigned (c :: cs) := by
  unfold parseSigned
  split
  next rest heq =>
    cases heq
    exact absurd h (by decide)
  next rest heq =>
    cases heq
    exact absurd h (by decide)
  next => rfl

lemma takeWhile_append_all {p : Char → Bool} {a : List Char} (h : ∀ c ∈ a, p c = true)
    (l : List Char) : (a ++ l).takeWhile p = a ++ l.takeWhile p := by
  induction a with
  | nil => rfl
  | cons c cs ih =>
      simp [List.takeWhile_cons, h c (List.mem_cons_self c cs),
        ih fun d hd => h d (List.mem_cons_of_mem c hd)]

lemma dropWhile_append_all {p : Char → Bool} {a : List Char} (h : ∀ c ∈ a, p c = true)
    {l : List Char} (hl : l.dropWhile p = l) : (a ++ l).dropWhile p = l := by
  induction a with
  | nil => exact hl
  | cons c cs ih =>
      simp only [List.cons_append, List.dropWhile_cons, h c (List.mem_cons_self c cs)]
      exact ih fun d hd => h d (List.mem_cons_of_mem c hd)

lemma parseUnsigned_append_dot {a b : List Char} (ha : a ≠ [])
    (hda : ∀ c ∈ a, Char.isDigit c = true) (hdb : ∀ c ∈ b, Char.isDigit c = true) :
    parseUnsigned (a ++ '.' :: b)
      = some ((digitsVal a : ℚ) + (digitsVal b : ℚ) / 10 ^ b.length) := by
  have hdot : Char.isDigit '.' = false := by decide
  have ht : (a ++ '.' :: b).takeWhile Char.isDigit = a := by
    rw [takeWhile_append_all hda]
    simp [List.takeWhile_cons, hdot]
  have hd : (a ++ '.' :: b).dropWhile Char.isDigit = '.' :: b := by
    refine dropWhile_append_all hda ?_
    simp [List.dropWhile_cons, hdot]
  simp only [parseUnsigned, ht, hd]
  rw [if_pos ⟨List.all_eq_true.mpr hdb, Or.inl ha⟩]

lemma parseUnsigned_nonneg {l : List Char} {q : ℚ} (h : parseUnsigned l = some q) : 0 ≤ q := by
  simp only [parseUnsigned] at h
  split at h
  · split at h
    · exact absurd h (by simp)
    · obtain rfl := Option.some.inj h
      positivity
  · split at h
    · obtain rfl := Option.some.inj h
      positivity
    · exact absurd h (by simp)
  · exact absurd h (by simp)

lemma parseSigned_nonneg {l : List Char} {q : ℚ} (hh : l.head? ≠ some '-')
    (h : parseSigned l = some q) : 0 ≤ q := by
  unfold parseSigned at h
  split at h
  · exact absurd rfl hh
  · exact parseUnsigned_nonneg h
  · exact parseUnsigned_nonneg h

lemma map_commaDot_of_not_mem {l : List Char} (h : ',' ∉ l) :
    l.map (fun c => if c = ',' then '.' else c) = l := by
  induction l with
  | nil => rfl
  | cons c cs ih =>
      have hc : c ≠ ',' := by
        intro hc
        subst hc
        exact h (List.mem_cons_self _ _)
      simp only [List.map_cons, if_neg hc, ih fun hm => h (List.mem_cons_of_mem c hm)]

lemma replaceCommaDot_of_not_mem {s : String} (h : ',' ∉ s.data) : replaceCommaDot s = s := by
  cases s with
  | mk data => exact congrArg String.mk (map_commaDot_of_not_mem h)

lemma dropWhile_eq_self_of_all {p : Char → Bool} {l : List Char}
    (h : ∀ c ∈ l, p c = false) : l.dropWhile p = l := by
  cases l with
  | nil => rfl
  | cons c cs => simp [List.dropWhile_cons, h c (List.mem_cons_self c cs)]

lemma stripSpaces_of_all {l : List Char} (h : ∀ c ∈ l, isSpaceChar c = false) :
    stripSpaces l = l := by
  unfold stripSpaces
  rw [dropWhile_eq_self_of_all h,
    dropWhile_eq_self_of_all fun c hc => h c (List.mem_reverse.mp hc),
    List.reverse_reverse]

lemma not_space_of_digit {c : Char} (h : Char.isDigit c = true) : isSpaceChar c = false := by
  by_contra hs
  rw [Bool.not_eq_false] at hs
  simp only [isSpaceChar, Bool.or_eq_true, beq_iff_eq] at hs
  rcases hs with ((((rfl | rfl) | rfl) | rfl) | rfl) | rfl <;> exact absurd h (by decide)

lemma mem_of_mem_stripSpaces {c : Char} {l : List Char} (h : c ∈ stripSpaces l) : c ∈ l := by
  unfold stripSpaces at h
  rw [List.mem_reverse] at h
  have h2 : c ∈ (l.dropWhile isSpaceChar).reverse := (List.dropWhile_sublist _).subset h
  rw [List.mem_reverse] at h2
  exact (List.dropWhile_sublist _).subset h2

lemma head_ne_of_not_mem {c : Char} {l : List Char} (h : c ∉ l) : l.head? ≠ some c := by
  cases l with
  | nil => simp
  | cons a as =>
      simp only [List.head?_cons, ne_eq, Option.some.injEq]
      intro ha
      subst ha
      exact h (List.mem_cons_self a as)

lemma minus_mem_of_mem_map {l : List Char}
    (h : '-' ∈ l.map fun c => if c = ',' then '.' else c) : '-' ∈ l := by
  obtain ⟨c, hc, hfc⟩ := List.mem_map.mp h
  by_cases hcc : c = ','
  · rw [if_pos hcc] at hfc
    exact absurd hfc (by decide)
  · rw [if_neg hcc] at hfc
    exact hfc ▸ hc

lemma toNumericCoerceStr_nonneg {s : String} {q : ℚ} (h : '-' ∉ s.data)
    (hp : toNumericCoerceStr s = some q) : 0 ≤ q :=
  parseSigned_nonneg (head_ne_of_not_mem fun hm => h (mem_of_mem_stripSpaces hm)) hp

lemma preprocessRow_ok_fields {now : String} {r : RawListing} {row : ProductRow}
    (h : preprocessRow now r = .ok row) :
    row.brand = r.brand ∧ row.name = r.name
      ∧ row.old_price = normPrice r.old_price
      ∧ row.new_price = normPrice r.new_price
      ∧ row.review_rating_number = normRating r.review_rating_number
      ∧ normReview r.review_amount = .ok row.review_amount
      ∧ row._source = SOURCE_URL ∧ row._crawled_at = now := by
  unfold preprocessRow at h
  cases hnr : normReview r.review_amount with
  | error e => rw [hnr] at h; exact absurd h (by simp)
  | ok ra =>
      rw [hnr] at h
      obtain rfl := (Except.ok.inj h).symm
      simp

lemma preprocess_data_mem {now : String} {rows : List RawListing} {out : List ProductRow}
    (h : preprocess_data now rows = .ok out) :
    ∀ row ∈ out, ∃ r ∈ rows, preprocessRow now r = .ok row := by
  induction rows generalizing out with
  | nil =>
      obtain rfl : ([] : List ProductRow) = out := Except.ok.inj h
      intro row hrow
      exact absurd hrow (by simp)
  | cons r rs ih =>
      unfold preprocess_data at h
      cases hr : preprocessRow now r with
      | error e => rw [hr] at h; exact absurd h (by simp)
      | ok row0 =>
          rw [hr] at h
          cases hrest : preprocess_data now rs with
          | error e => rw [hrest] at h; exact absurd h (by simp)
          | ok rest =>
              rw [hrest] at h
              obtain rfl := (Except.ok.inj h).symm
              intro row hrow
              rcases List.mem_cons.mp hrow with rfl | hrow
              · exact ⟨r, List.mem_cons_self r rs, hr⟩
              · obtain ⟨r1, hr1, hp1⟩ := ih hrest row hrow
                exact ⟨r1, List.mem_cons_of_mem r hr1, hp1⟩

lemma normPrice_nonneg {v : Option String} {q : ℚ}
    (hm : ∀ s, v = some s → '-' ∉ s.data)
    (h : normPrice v = some q) : 0 ≤ q := by
  refine toNumericCoerceStr_nonneg ?_ h
  cases v with
  | none => decide
  | some s =>
      show '-' ∉ (replaceCommaDot (pyAstypeStr (some s))).data
      exact fun hmem => hm s rfl (minus_mem_of_mem_map hmem)

lemma normRating_nonneg {v : Option String} {q : ℚ}
    (hm : ∀ s, v = some s → '-' ∉ s.data)
    (h : normRating v = some q) : 0 ≤ q := by
  cases v with
  | none => exact absurd h (by simp [normRating, toNumericCoerce])
  | some s => exact toNumericCoerceStr_nonneg (hm s rfl) h

lemma normReview_nonneg {v : Option String} {n : ℤ}
    (hm : ∀ s, v = some s → '-' ∉ s.data)
    (h : normReview v = .ok (some n)) : 0 ≤ n := by
  rw [normReview] at h
  cases hq : toNumericCoerce v with
  | none => rw [hq] at h; simp [astypeInt64] at h
  | some q =>
      rw [hq] at h
      simp only [astypeInt64] at h
      split at h
      · obtain rfl : q.num = n := by simpa using Except.ok.inj h
        cases v with
        | none => exact absurd hq (by simp [toNumericCoerce])
        | some s => exact Rat.num_nonneg.mpr (toNumericCoerceStr_nonneg (hm s rfl) hq)
      · injection h

lemma length_parse_next_pages (fetch : String → PageNode) :
    ∀ (r : Nat) (url : String), (parse_next_pages fetch r url).length ≤ r + 1 := by
  intro r
  induction r with
  | zero => intro url; simp [parse_next_pages]
  | succ n ih =>
      intro url
      simp only [parse_next_pages, List.length_cons]
      cases h : (fetch url).css nextSelector with
      | none => simp
      | some nxt => simpa using Nat.succ_le_succ (ih nxt)

lemma length_parse (fetch : String → PageNode) (r : Nat) (url : String) :
    (parse fetch r url).length ≤ r + 1 := by
  cases r with
  | zero => simp [parse]
  | succ n =>
      simp only [parse, List.length_cons]
      cases h : (fetch url).css nextSelector with
      | none => simp
      | some nxt => simpa using Nat.succ_le_succ (length_parse_next_pages fetch n nxt)

lemma gen_parse_next_pages (fetch : String → PageNode) :
    ∀ (r : Nat) (url : String), ∀ v ∈ parse_next_pages fetch r url,
      v.gen = Gen.B ∧ v.items = (fetch v.url).products.map parseItemB := by
  intro r
  induction r with
  | zero =>
      intro url v hv
      simp [parse_next_pages] at hv
      subst hv
      exact ⟨rfl, rfl⟩
  | succ n ih =>
      intro url v hv
      simp only [parse_next_pages, List.mem_cons] at hv
      rcases hv with rfl | hv
      · exact ⟨rfl, rfl⟩
      · cases h : (fetch url).css nextSelector with
        | none => rw [h] at hv; simp at hv
        | some nxt => rw [h] at hv; exact ih nxt v hv

end Mercadolivre

/-! ## Claim theorems -/

namespace Mercadolivre

/-- C1: the number of pages visited by a crawl never exceeds max_pages, and
on the three-page fixture with max_pages = 2 the crawl emits records from
exactly pages 1 and 2 (visiting exactly those two URLs) and never fetches
page 3, although page 2 still carries a next-page link. -/
theorem C1_page_budget :
    (∀ (fetch : String → PageNode) (max_pages : Nat) (url : String),
        1 ≤ max_pages → (crawl fetch max_pages url).length ≤ max_pages)
      ∧ (crawl fixtureFetch 2 "page1").map PageVisit.url = ["page1", "page2"]
      ∧ (crawl fixtureFetch 2 "page1").map PageVisit.items =
          [[⟨some "Brastemp", none, none, none, none, some "0"⟩],
           [⟨some "Consul", none, none, none, none, some "0"⟩]] := by
  refine ⟨fun fetch max_pages url h1 => ?_, by decide, by decide⟩
  have hb := length_parse fetch (max_pages - 1) url
  unfold crawl
  omega

/-- Witness for C1 at the concrete fixture. -/
theorem C1_page_budget_witness :
    1 ≤ 2 ∧ (crawl fixtureFetch 2 "page1").length ≤ 2 :=
  ⟨by decide, C1_page_budget.1 fixtureFetch 2 "page1" (by decide)⟩

/-- C2 (amended): price normalization replaces every comma by a period and
parses the result as a decimal; for every text of the form digits-comma-
digits the result is the decimal denoted with the comma read as a decimal
period; empty or null input yields null (the conversion is a total function
into Option, so it never raises).  The text "1.234,56", however, yields
null, because after comma replacement it reads "1.234.56", which is not a
parsable decimal. -/
theorem C2_price_normalization (a b : List Char) (ha : a ≠ []) (hb : b ≠ [])
    (hda : ∀ c ∈ a, Char.isDigit c = true) (hdb : ∀ c ∈ b, Char.isDigit c = true) :
    normPrice (some ⟨a ++ ',' :: b⟩)
        = some ((digitsVal a : ℚ) + (digitsVal b : ℚ) / 10 ^ b.length)
      ∧ normPrice (some ⟨a ++ ',' :: b⟩) = toNumericCoerceStr ⟨a ++ '.' :: b⟩
      ∧ normPrice (some "1.234,56") = none
      ∧ normPrice (some "") = none
      ∧ normPrice none = none := by
  have hca : ',' ∉ a := fun hm => absurd (hda ',' hm) (by decide)
  have hcb : ',' ∉ b := fun hm => absurd (hdb ',' hm) (by decide)
  have hrep : replaceCommaDot ⟨a ++ ',' :: b⟩ = ⟨a ++ '.' :: b⟩ := by
    unfold replaceCommaDot
    simp only [List.map_append, List.map_cons, map_commaDot_of_not_mem hca,
      map_commaDot_of_not_mem hcb, if_true]
  have hval : toNumericCoerceStr ⟨a ++ '.' :: b⟩
      = some ((digitsVal a : ℚ) + (digitsVal b : ℚ) / 10 ^ b.length) := by
    have hstrip : stripSpaces (a ++ '.' :: b) = a ++ '.' :: b := by
      refine stripSpaces_of_all ?_
      intro c hc
      rcases List.mem_append.mp hc with h1 | h2
      · exact not_space_of_digit (hda c h1)
      · rcases List.mem_cons.mp h2 with rfl | h3
        · decide
        · exact not_space_of_digit (hdb c h3)
    show parseSigned (stripSpaces (a ++ '.' :: b)) = _
    rw [hstrip]
    cases a with
    | nil => exact absurd rfl ha
    | cons a0 as =>
        rw [List.cons_append, parseSigned_cons_digit (hda a0 (List.mem_cons_self a0 as)),
          ← List.cons_append]
        exact parseUnsigned_append_dot ha hda hdb
  have h1 : normPrice (some ⟨a ++ ',' :: b⟩)
      = some ((digitsVal a : ℚ) + (digitsVal b : ℚ) / 10 ^ b.length) := by
    rw [normPrice]
    show toNumericCoerceStr (replaceCommaDot ⟨a ++ ',' :: b⟩) = _
    rw [hrep, hval]
  exact ⟨h1, by rw [h1, hval], by decide, by decide, by decide⟩

/-- Counterexample to C2 as stated: the text "1.234,56" does not normalize
to the decimal 1234.56; it normalizes to null. -/
theorem C2_counterexample :
    normPrice (some "1.234,56") = none
      ∧ normPrice (some "1.234,56") ≠ some ((123456 : ℚ) / 100) := by
  have h : normPrice (some "1.234,56") = none := by decide
  exact ⟨h, by rw [h]; simp⟩

/-- Witness for C2 at the concrete text "1,5". -/
theorem C2_price_normalization_witness :
    normPrice (some ⟨['1'] ++ ',' :: ['5']⟩)
      = some ((digitsVal ['1'] : ℚ) + (digitsVal ['5'] : ℚ) / 10 ^ (['5'] : List Char).length) :=
  (C2_price_normalization ['1'] ['5'] (by decide) (by decide) (by decide) (by decide)).1

/-- C3: the raw review-count text "(123)" is stripped to "123" by the
extractor and normalizes to the integer 123; an absent or empty
review-count element yields the default text "0" (the default is applied
before parenthesis stripping) which normalizes to the integer 0; text that
is still unparsable after stripping the enclosing parentheses normalizes to
null, not to zero. -/
theorem C3_review_count :
    (parseItemA (nodeOf [("span.poly-reviews__total::text", "(123)")])).review_amount
        = some "123"
      ∧ normReview (some "123") = .ok (some 123)
      ∧ (parseItemA (nodeOf [])).review_amount = some "0"
      ∧ (parseItemA (nodeOf [("span.poly-reviews__total::text", "")])).review_amount = some "0"
      ∧ normReview (some "0") = .ok (some 0)
      ∧ reviewAmountOf (some "(abc)") = "abc"
      ∧ normReview (some "abc") = .ok none
      ∧ normReview (some "abc") ≠ .ok (some 0) := by
  refine ⟨by decide, rfl, by decide, by decide, rfl, by decide, rfl, ?_⟩
  simp [show normReview (some "abc") = Except.ok none from rfl]

/-- C4 (exhibit of the code bug): a review-count text that parses as a
non-integral number, such as "1.5" (scraped from a raw "(1.5)"), makes the
normalization step raise (the Int64 cast rejects non-integral floats)
instead of emitting the record with a null field, contradicting the
never-raises contract that errors="coerce" is there to provide. -/
theorem C4_review_cast_raises :
    pyStrip ['(', ')'] "(1.5)" = "1.5"
      ∧ normReview (some "1.5") = .error ()
      ∧ preprocess_data "2025-01-01 00:00:00" [rawReviewOnly "1.5"] = .error () := by
  have hq : toNumericCoerceStr "1.5" = some ((3 : ℚ) / 2) := by
    show parseSigned ['1', '.', '5'] = _
    simp +decide [parseSigned, parseUnsigned, digitsVal]
    norm_num
  have hr : normReview (some "1.5") = .error () := by
    show astypeInt64 (toNumericCoerceStr "1.5") = _
    rw [hq]
    simp only [astypeInt64]
    rw [if_neg (by norm_num)]
  refine ⟨by decide, hr, ?_⟩
  show (match preprocessRow "2025-01-01 00:00:00" (rawReviewOnly "1.5") with
    | .error e => Except.error e
    | .ok row => _) = Except.error ()
  rw [show preprocessRow "2025-01-01 00:00:00" (rawReviewOnly "1.5") = .error () from by
    unfold preprocessRow
    rw [show (rawReviewOnly "1.5").review_amount = some "1.5" from rfl, hr]]

/-- C5: the sink write has full-replace semantics: after two consecutive
runs writing record collections df1 and then df2 to the same table, the
table holds exactly df2 (never a union, merge, or append with df1), and
other tables of the database are untouched. -/
theorem C5_full_replace (df1 df2 : List ProductRow) (db : Db) (table_name : String) :
    save_to_database df2 (save_to_database df1 db table_name) table_name table_name = some df2
      ∧ ∀ t, t ≠ table_name →
          save_to_database df2 (save_to_database df1 db table_name) table_name t = db t := by
  constructor
  · simp [save_to_database]
  · intro t ht
    simp [save_to_database, ht]

/-- Witness for C5 at concrete table states. -/
theorem C5_full_replace_witness :
    save_to_database [] (save_to_database [rowAllNone] (fun _ => none) "mercadolivre")
        "mercadolivre" "mercadolivre" = some []
      ∧ save_to_database [] (save_to_database [rowAllNone] (fun _ => none) "mercadolivre")
          "mercadolivre" "outra_tabela" = none :=
  ⟨(C5_full_replace [rowAllNone] [] (fun _ => none) "mercadolivre").1,
    (C5_full_replace [rowAllNone] [] (fun _ => none) "mercadolivre").2 "outra_tabela" (by decide)⟩

/-- C6: the first page of every crawl is extracted with the generation-A
selector ruleset, and every subsequent page with the generation-B ruleset;
under either ruleset every product container yields exactly one record of
the same fixed record type (same field set). -/
theorem C6_layout_generations (fetch : String → PageNode) (max_pages : Nat) (url : String) :
    ∃ rest, crawl fetch max_pages url
        = ⟨url, Gen.A, (fetch url).products.map parseItemA⟩ :: rest
      ∧ (∀ v ∈ rest, v.gen = Gen.B ∧ v.items = (fetch v.url).products.map parseItemB)
      ∧ ∀ v ∈ crawl fetch max_pages url, v.items.length = (fetch v.url).products.length := by
  unfold crawl
  generalize max_pages - 1 = r
  cases r with
  | zero =>
      refine ⟨[], rfl, by simp, ?_⟩
      intro v hv
      simp only [parse, List.mem_singleton] at hv
      subst hv
      simp
  | succ n =>
      simp only [parse]
      cases h : (fetch url).css nextSelector with
      | some nxt =>
          refine ⟨parse_next_pages fetch n nxt, by rfl, ?_, ?_⟩
          · exact fun v hv => gen_parse_next_pages fetch n nxt v hv
          · intro v hv
            rcases List.mem_cons.mp hv with rfl | hv
            · simp
            · rw [(gen_parse_next_pages fetch n nxt v hv).2]
              simp
      | none =>
          refine ⟨[], by rfl, by simp, ?_⟩
          intro v hv
          rcases List.mem_cons.mp hv with rfl | hv
          · simp
          · simp at hv

/-- Witness for C6 at the concrete fixture. -/
theorem C6_layout_generations_witness :
    (crawl fixtureFetch 2 "page1").head? =
      some ⟨"page1", Gen.A, (fixtureFetch "page1").products.map parseItemA⟩ := by
  obtain ⟨rest, h1, -, -⟩ := C6_layout_generations fixtureFetch 2 "page1"
  rw [h1]
  rfl

/-- Counterexample to C7 as stated: the normalizer enforces no range
checks, so a raw listing with price text "-1" and rating text "7.3" is
normalized (and would be persisted) with negative prices and a rating above
five. -/
theorem C7_counterexample :
    preprocess_data "t" [rawNegPrice]
        = .ok [{ brand := none, name := none, old_price := some (-1), new_price := some (-1),
                 review_rating_number := some ((73 : ℚ) / 10), review_amount := some 0,
                 _source := SOURCE_URL, _crawled_at := "t" }]
      ∧ ¬ (0 : ℚ) ≤ (-1 : ℚ) ∧ ¬ ((73 : ℚ) / 10) ≤ 5 := by
  have hm1 : normPrice (some "-1") = some (-1 : ℚ) := by rfl
  have h73 : normRating (some "7.3") = some ((73 : ℚ) / 10) := by
    show parseSigned ['7', '.', '3'] = _
    rw [parseSigned_cons_digit (by decide)]
    rw [show (['7', '.', '3'] : List Char) = ['7'] ++ '.' :: ['3'] from rfl]
    rw [parseUnsigned_append_dot (by decide) (by decide) (by decide)]
    rw [show digitsVal ['7'] = 7 from by decide, show digitsVal ['3'] = 3 from by decide]
    norm_num
  refine ⟨?_, by norm_num, by norm_num⟩
  simp only [preprocess_data, preprocessRow, rawNegPrice,
    show normReview (some "0") = .ok (some 0) from rfl, hm1, h73]

/-- C7 (amended): the normalizer itself enforces no range validation; the
nonnegativity invariants (prices, rating, review count at least zero) hold
for every input whose numeric source texts contain no minus sign, and the
upper bound of 5 on the rating is not enforced at all. -/
theorem C7_range_invariants (now : String) (rows : List RawListing) (out : List ProductRow)
    (h : preprocess_data now rows = .ok out)
    (hm : ∀ r ∈ rows,
        ∀ v ∈ [r.old_price, r.new_price, r.review_rating_number, r.review_amount],
          ∀ s, v = some s → '-' ∉ s.data) :
    ∀ row ∈ out,
      (∀ q, row.old_price = some q → 0 ≤ q)
        ∧ (∀ q, row.new_price = some q → 0 ≤ q)
        ∧ (∀ q, row.review_rating_number = some q → 0 ≤ q)
        ∧ (∀ n, row.review_amount = some n → 0 ≤ n) := by
  intro row hrow
  obtain ⟨r, hrmem, hr⟩ := preprocess_data_mem h row hrow
  obtain ⟨-, -, hop, hnp, hrr, hra, -, -⟩ := preprocessRow_ok_fields hr
  have hm4 := hm r hrmem
  refine ⟨fun q hq => ?_, fun q hq => ?_, fun q hq => ?_, fun n hn => ?_⟩
  · exact normPrice_nonneg (hm4 r.old_price (by simp)) (hop ▸ hq)
  · exact normPrice_nonneg (hm4 r.new_price (by simp)) (hnp ▸ hq)
  · exact normRating_nonneg (hm4 r.review_rating_number (by simp)) (hrr ▸ hq)
  · refine normReview_nonneg (hm4 r.review_amount (by simp)) ?_
    rw [hra, hn]

/-- Witness for C7 at a concrete all-null raw record. -/
theorem C7_range_invariants_witness :
    preprocess_data "t" [rawAllNone] = .ok [rowAllNone]
      ∧ ∀ row ∈ [rowAllNone],
          (∀ q, row.old_price = some q → 0 ≤ q)
            ∧ (∀ q, row.new_price = some q → 0 ≤ q)
            ∧ (∀ q, row.review_rating_number = some q → 0 ≤ q)
            ∧ (∀ n, row.review_amount = some n → 0 ≤ n) :=
  ⟨rfl, C7_range_invariants "t" [rawAllNone] [rowAllNone] rfl (by simp [rawAllNone])⟩

/-- C8: within one run (one preprocess_data call, hence one wall-clock
read), every output row carries the same crawled-at stamp and the same
constant source URL. -/
theorem C8_provenance_stamps (now : String) (rows : List RawListing) (out : List ProductRow)
    (h : preprocess_data now rows = .ok out) :
    ∀ row ∈ out, row._crawled_at = now ∧ row._source = SOURCE_URL := by
  intro row hrow
  obtain ⟨r, -, hr⟩ := preprocess_data_mem h row hrow
  obtain ⟨-, -, -, -, -, -, hsrc, hcr⟩ := preprocessRow_ok_fields hr
  exact ⟨hcr, hsrc⟩

/-- Witness for C8 at a concrete run. -/
theorem C8_provenance_stamps_witness :
    preprocess_data "t" [rawAllNone] = .ok [rowAllNone]
      ∧ ∀ row ∈ [rowAllNone], row._crawled_at = "t" ∧ row._source = SOURCE_URL :=
  ⟨rfl, C8_provenance_stamps "t" [rawAllNone] [rowAllNone] rfl⟩

/-- C9: the field conversions are idempotent: feeding the textual form of
an already-typed value back through the corresponding conversion reproduces
the value exactly — a comma-free decimal text of a price parses back to the
same rational, a rating text likewise, an integer text passes the Int64
cast back to the same integer, the textual form "nan" of a null price
reproduces null, null rating and review values reproduce null, and brand
and name pass through the row conversion unchanged. -/
theorem C9_idempotence (sp sr sa : String) (qp qr : ℚ) (na : ℤ)
    (hpc : ',' ∉ sp.data)
    (hp : toNumericCoerceStr sp = some qp)
    (hr : toNumericCoerceStr sr = some qr)
    (ha : toNumericCoerceStr sa = some (na : ℚ)) :
    normPrice (some sp) = some qp
      ∧ normRating (some sr) = some qr
      ∧ normReview (some sa) = .ok (some na)
      ∧ normPrice (some "nan") = none
      ∧ normRating none = none
      ∧ normReview none = .ok none
      ∧ ∀ (now : String) (r : RawListing) (row : ProductRow),
          preprocessRow now r = .ok row → row.brand = r.brand ∧ row.name = r.name := by
  refine ⟨?_, hr, ?_, by decide, rfl, rfl, ?_⟩
  · rw [normPrice]
    show toNumericCoerceStr (replaceCommaDot sp) = some qp
    rw [replaceCommaDot_of_not_mem hpc, hp]
  · show astypeInt64 (toNumericCoerceStr sa) = _
    rw [ha]
    simp [astypeInt64]
  · intro now r row h
    obtain ⟨hb, hn, -⟩ := preprocessRow_ok_fields h
    exact ⟨hb, hn⟩

/-- Witness for C9 at concrete already-normalized values. -/
theorem C9_idempotence_witness :
    normPrice (some "1234.56") = some ((123456 : ℚ) / 100)
      ∧ normRating (some "4.5") = some ((45 : ℚ) / 10)
      ∧ normReview (some "123") = .ok (some 123) := by
  have hp : toNumericCoerceStr "1234.56" = some ((123456 : ℚ) / 100) := by
    show parseSigned ['1', '2', '3', '4', '.', '5', '6'] = _
    rw [parseSigned_cons_digit (by decide)]
    rw [show (['1', '2', '3', '4', '.', '5', '6'] : List Char)
        = ['1', '2', '3', '4'] ++ '.' :: ['5', '6'] from rfl]
    rw [parseUnsigned_append_dot (by decide) (by decide) (by decide)]
    rw [show digitsVal ['1', '2', '3', '4'] = 1234 from by decide,
      show digitsVal ['5', '6'] = 56 from by decide]
    norm_num
  have hra : toNumericCoerceStr "4.5" = some ((45 : ℚ) / 10) := by
    show parseSigned ['4', '.', '5'] = _
    rw [parseSigned_cons_digit (by decide)]
    rw [show (['4', '.', '5'] : List Char) = ['4'] ++ '.' :: ['5'] from rfl]
    rw [parseUnsigned_append_dot (by decide) (by decide) (by decide)]
    rw [show digitsVal ['4'] = 4 from by decide, show digitsVal ['5'] = 5 from by decide]
    norm_num
  have hn : toNumericCoerceStr "123" = some ((123 : ℤ) : ℚ) := by
    have h0 : toNumericCoerceStr "123" = some ((123 : ℕ) : ℚ) := rfl
    rw [h0]
    norm_num
  obtain ⟨h1, h2, h3, -⟩ :=
    C9_idempotence "1234.56" "4.5" "123" ((123456 : ℚ) / 100) ((45 : ℚ) / 10) 123
      (by decide) hp hra hn
  exact ⟨h1, h2, h3⟩

/-- C10: normalization is deterministic in all data columns: two
preprocess_data runs over the same raw records at different wall-clock
readings agree on every output column except the crawled-at stamp. -/
theorem C10_determinism (now1 now2 : String) (rows : List RawListing) :
    (preprocess_data now1 rows).map (List.map dataColumns)
      = (preprocess_data now2 rows).map (List.map dataColumns) := by
  induction rows with
  | nil => rfl
  | cons r rs ih =>
      simp only [preprocess_data]
      cases hnr : normReview r.review_amount with
      | error e =>
          rw [show preprocessRow now1 r = .error e from by unfold preprocessRow; rw [hnr],
            show preprocessRow now2 r = .error e from by unfold preprocessRow; rw [hnr]]
      | ok ra =>
          rw [show preprocessRow now1 r = .ok
                { brand := r.brand, name := r.name, old_price := normPrice r.old_price,
                  new_price := normPrice r.new_price,
                  review_rating_number := normRating r.review_rating_number,
                  review_amount := ra, _source := SOURCE_URL, _crawled_at := now1 } from by
              unfold preprocessRow; rw [hnr],
            show preprocessRow now2 r = .ok
                { brand := r.brand, name := r.name, old_price := normPrice r.old_price,
                  new_price := normPrice r.new_price,
                  review_rating_number := normRating r.review_rating_number,
                  review_amount := ra, _source := SOURCE_URL, _crawled_at := now2 } from by
              unfold preprocessRow; rw [hnr]]
          cases h1 : preprocess_data now1 rs with
          | error e =>
              cases h2 : preprocess_data now2 rs with
              | error e2 => rfl
              | ok rest2 => rw [h1, h2] at ih; simp [Except.map] at ih
          | ok rest1 =>
              cases h2 : preprocess_data now2 rs with
              | error e2 => rw [h1, h2] at ih; simp [Except.map] at ih
              | ok rest2 =>
                  rw [h1, h2] at ih
                  have htail : rest1.map dataColumns = rest2.map dataColumns := by
                    simpa [Except.map] using ih
                  simp [Except.map, dataColumns, htail]

end Mercadolivre
